import Mathlib

/-!
Shallow embedding of `ui/dissect_opts.c` (Wireshark dissection-option
handling): the timestamp-spec parser inside `dissect_opts_handle_opt`,
the option dispatcher itself, and `setup_enabled_and_disabled_protocols`.

Strings are modelled as `List Char` buffers (the C argument buffer without
its terminating NUL; reading one past the end yields the NUL terminator).
Buffer mutations performed by the code (`*dotp = '\0'` and the restoring
`*dotp = '.'`) are modelled explicitly, and every write is recorded in a
write log so that frame properties about the caller's buffer can be stated.
External collaborators (decode-as, Kerberos, name resolution, the protocol
registry) are modelled as oracle functions supplied by the caller.
-/

/-- The NUL character, used as the C string terminator and as the masking
character written over the dot. -/
def nulC : Char := Char.ofNat 0

/-- Reading the buffer at index `i` as C does through a `char *`: positions
past the end read the NUL terminator. -/
def charAt (buf : List Char) (i : Nat) : Char := buf.getD i nulC

/-- The C string currently held in the buffer: the characters before the
first NUL.  This is what `strcmp` against the buffer sees. -/
def cstr (buf : List Char) : List Char := buf.takeWhile (fun c => c ≠ nulC)

/-- Embedding of `strchr(buf, '.')`: index of the first `'.'` occurring
before the first NUL, or `none`. -/
def strchrIdx : List Char → Option Nat
  | [] => none
  | c :: cs =>
      if c = nulC then none
      else if c = '.' then some 0
      else (strchrIdx cs).map (fun i => i + 1)

/-- The `ts_type` enumeration from `epan/timestamp.h`, values used by the
`'t'` handler. -/
inductive TsFormat
  | TS_NOT_SET
  | TS_RELATIVE
  | TS_ABSOLUTE
  | TS_ABSOLUTE_WITH_YMD
  | TS_ABSOLUTE_WITH_YDOY
  | TS_DELTA
  | TS_DELTA_DIS
  | TS_EPOCH
  | TS_UTC
  | TS_UTC_WITH_YMD
  | TS_UTC_WITH_YDOY
deriving DecidableEq, Repr

/-- The `ts_precision` enumeration from `epan/timestamp.h`, values used by
the `'t'` handler. -/
inductive TsPrecision
  | TS_PREC_NOT_SET
  | TS_PREC_AUTO
  | TS_PREC_FIXED_SEC
  | TS_PREC_FIXED_DSEC
  | TS_PREC_FIXED_CSEC
  | TS_PREC_FIXED_MSEC
  | TS_PREC_FIXED_USEC
  | TS_PREC_FIXED_NSEC
deriving DecidableEq, Repr

/-- The `dissect_options` record (`global_dissect_options`): timestamp
format and precision plus the four accumulated name lists. -/
structure DissectOptions where
  time_format : TsFormat
  time_precision : TsPrecision
  disable_protocol_slist : List (List Char)
  enable_protocol_slist : List (List Char)
  enable_heur_slist : List (List Char)
  disable_heur_slist : List (List Char)
deriving DecidableEq, Repr

/-- `dissect_opts_init`: the state after initialisation. -/
def dissect_opts_init : DissectOptions :=
  { time_format := .TS_NOT_SET
  , time_precision := .TS_PREC_NOT_SET
  , disable_protocol_slist := []
  , enable_protocol_slist := []
  , enable_heur_slist := []
  , disable_heur_slist := [] }

/-- The `switch(*++p)` of the `'t'` handler: precision selected by the
character after the dot (`none` models the `default:` branch that sets
`dotp = NULL`). -/
def precOfSuffix (c : Char) : Option TsPrecision :=
  if c = nulC then some .TS_PREC_AUTO
  else if c = '0' then some .TS_PREC_FIXED_SEC
  else if c = '1' then some .TS_PREC_FIXED_DSEC
  else if c = '2' then some .TS_PREC_FIXED_CSEC
  else if c = '3' then some .TS_PREC_FIXED_MSEC
  else if c = '6' then some .TS_PREC_FIXED_USEC
  else if c = '9' then some .TS_PREC_FIXED_NSEC
  else none

/-- The `strcmp` chain of the `'t'` handler mapping a type token to a
`time_format` value. -/
def formatOf (s : List Char) : Option TsFormat :=
  if s = ['r'] then some .TS_RELATIVE
  else if s = ['a'] then some .TS_ABSOLUTE
  else if s = ['a', 'd'] then some .TS_ABSOLUTE_WITH_YMD
  else if s = ['a', 'd', 'o', 'y'] then some .TS_ABSOLUTE_WITH_YDOY
  else if s = ['d'] then some .TS_DELTA
  else if s = ['d', 'd'] then some .TS_DELTA_DIS
  else if s = ['e'] then some .TS_EPOCH
  else if s = ['u'] then some .TS_UTC
  else if s = ['u', 'd'] then some .TS_UTC_WITH_YMD
  else if s = ['u', 'd', 'o', 'y'] then some .TS_UTC_WITH_YDOY
  else none

/-- Result of the `'t'` handler: the returned boolean, the final contents
of the caller's argument buffer, the updated option state, and the log of
every in-place write `(index, character)` made to the buffer, in order. -/
structure TRes where
  ok : Bool
  buf : List Char
  st : DissectOptions
  writes : List (Nat × Char)
deriving DecidableEq, Repr

/-- The tail of the `'t'` handler after the format `strcmp` chain: `if
(dotp) { *dotp = '.'; global_dissect_options.time_precision = tsp; }`
followed by `return TRUE`. -/
def tFinish (buf : List Char) (st : DissectOptions) (dotp : Option Nat)
    (tsp : TsPrecision) (w : List (Nat × Char)) : TRes :=
  match dotp with
  | some i =>
      ⟨true, buf.set i '.', { st with time_precision := tsp }, w ++ [(i, '.')]⟩
  | none => ⟨true, buf, st, w⟩

/-- The format-matching phase of the `'t'` handler: the `strcmp` chain, the
`optarg_str_p != dotp` mismatch branch (restoring the dot before the error
when it had been masked), and the fall-through to `tFinish`. -/
def tFormatPhase (buf : List Char) (st : DissectOptions) (dotp : Option Nat)
    (tsp : TsPrecision) (w : List (Nat × Char)) : TRes :=
  match formatOf (cstr buf) with
  | some f => tFinish buf { st with time_format := f } dotp tsp w
  | none =>
      match dotp with
      | none => ⟨false, buf, st, w⟩
      | some i =>
          if i = 0 then tFinish buf st dotp tsp w
          else ⟨false, buf.set i '.', st, w ++ [(i, '.')]⟩

/-- The dot-handling block of the `'t'` handler, entered when `strchr`
found a dot at index `i`: decode the precision suffix, reject a suffix
longer than one character, then mask the dot with NUL and proceed to the
format-matching phase.  The two rejection branches return `FALSE` without
touching the buffer. -/
def tDotPhase (buf : List Char) (st : DissectOptions) (i : Nat) : TRes :=
  match precOfSuffix (charAt buf (i + 1)) with
  | none => ⟨false, buf, st, []⟩
  | some tsp =>
      if charAt buf (i + 1) ≠ nulC ∧ charAt buf (i + 2) ≠ nulC then
        ⟨false, buf, st, []⟩
      else
        tFormatPhase (buf.set i nulC) st (some i) tsp [(i, nulC)]

/-- The `case 't'` body of `dissect_opts_handle_opt`: find the dot, decode
and validate the precision suffix, mask the dot with NUL while matching the
format token, and restore it. -/
def handleT (buf : List Char) (st : DissectOptions) : TRes :=
  match strchrIdx buf with
  | none => tFormatPhase buf st none .TS_PREC_NOT_SET []
  | some i => tDotPhase buf st i

/-- External collaborators of the dispatcher, modelled as oracles:
`decode_as_command_option`, `string_to_name_resolve` (returning the bad
option character, NUL for success), the compile-time Kerberos support flag,
and `read_keytab_file` (whose boolean result the code discards). -/
structure Externals where
  decodeAs : List Char → Bool
  stringToNameResolve : List Char → Char
  kerberosSupport : Bool
  readKeytab : List Char → Bool

/-- Outcome of `dissect_opts_handle_opt`: either a normal return carrying
the boolean result, the updated state, the final argument buffer and the
buffer write log, or the `ws_assert_not_reached()` process abort of the
`default:` branch. -/
inductive HOutcome
  | ret (ok : Bool) (st : DissectOptions) (buf : List Char)
      (writes : List (Nat × Char))
  | assertNotReached
deriving DecidableEq, Repr

/-- Modelled from the spec: option code for `--disable-protocol`, defined
in `ui/dissect_opts.h` which is not part of the given sources; only its
distinctness from the other codes matters. -/
def LONGOPT_DISABLE_PROTOCOL : Nat := 4001

/-- Modelled from the spec: option code for `--enable-heuristic` (header
not in the given sources). -/
def LONGOPT_ENABLE_HEURISTIC : Nat := 4002

/-- Modelled from the spec: option code for `--disable-heuristic` (header
not in the given sources). -/
def LONGOPT_DISABLE_HEURISTIC : Nat := 4003

/-- Modelled from the spec: option code for `--enable-protocol` (header
not in the given sources). -/
def LONGOPT_ENABLE_PROTOCOL : Nat := 4004

/-- `dissect_opts_handle_opt`: dispatch on the option code.  Branches are
in source order; external calls go through the `Externals` oracles. -/
def dissect_opts_handle_opt (ext : Externals) (opt : Nat) (arg : List Char)
    (st : DissectOptions) : HOutcome :=
  if opt = 'd'.toNat then
    if ext.decodeAs arg = false then .ret false st arg []
    else .ret true st arg []
  else if opt = 'K'.toNat then
    if ext.kerberosSupport then
      let _ := ext.readKeytab arg
      .ret true st arg []
    else .ret false st arg []
  else if opt = 'n'.toNat then .ret true st arg []
  else if opt = 'N'.toNat then
    if ext.stringToNameResolve arg ≠ nulC then .ret false st arg []
    else .ret true st arg []
  else if opt = 't'.toNat then
    match handleT arg st with
    | ⟨ok, buf, st2, w⟩ => .ret ok st2 buf w
  else if opt = 'u'.toNat then
    if cstr arg = ['s'] then .ret true st arg []
    else if cstr arg = ['h', 'm', 's'] then .ret true st arg []
    else .ret false st arg []
  else if opt = LONGOPT_DISABLE_PROTOCOL then
    .ret true
      { st with disable_protocol_slist := st.disable_protocol_slist ++ [arg] }
      arg []
  else if opt = LONGOPT_ENABLE_HEURISTIC then
    .ret true { st with enable_heur_slist := st.enable_heur_slist ++ [arg] }
      arg []
  else if opt = LONGOPT_DISABLE_HEURISTIC then
    .ret true { st with disable_heur_slist := st.disable_heur_slist ++ [arg] }
      arg []
  else if opt = LONGOPT_ENABLE_PROTOCOL then
    .ret true
      { st with enable_protocol_slist := st.enable_protocol_slist ++ [arg] }
      arg []
  else .assertNotReached

/-- The set of option codes the dispatcher recognizes. -/
def recognizedOpts : List Nat :=
  ['d'.toNat, 'K'.toNat, 'n'.toNat, 'N'.toNat, 't'.toNat, 'u'.toNat,
   LONGOPT_DISABLE_PROTOCOL, LONGOPT_ENABLE_HEURISTIC,
   LONGOPT_DISABLE_HEURISTIC, LONGOPT_ENABLE_PROTOCOL]

/-- The protocol registry as seen by the apply phase: only
`proto_enable_heuristic_by_name` returns a result the code consults. -/
structure Registry where
  enableHeuristic : List Char → Bool → Bool

/-- One call made by the apply phase into the protocol registry. -/
inductive RegCall
  | disableProto (name : List Char)
  | enableProto (name : List Char)
  | enableHeur (name : List Char) (enable : Bool)
deriving DecidableEq, Repr

/-- Result of one heuristic loop of `setup_enabled_and_disabled_protocols`:
aggregate flag, registry calls made, and names for which `cmdarg_err` was
emitted, all in processing order. -/
structure HeurRes where
  ok : Bool
  calls : List RegCall
  errs : List (List Char)
deriving DecidableEq, Repr

/-- One of the two heuristic loops (steps 3 and 4): call
`proto_enable_heuristic_by_name(name, enable)` for every name, emit an
error and clear the aggregate flag on a false result, never aborting. -/
def heurLoop (reg : Registry) (enable : Bool) : List (List Char) → HeurRes
  | [] => ⟨true, [], []⟩
  | n :: ns =>
      let ok := reg.enableHeuristic n enable
      let r := heurLoop reg enable ns
      ⟨ok && r.ok, .enableHeur n enable :: r.calls,
       (if ok then [] else [n]) ++ r.errs⟩

/-- Result of `setup_enabled_and_disabled_protocols`: the returned boolean,
the full trace of registry calls in order, the error emissions, and the
(unmodified) configuration state after the call. -/
structure ApplyRes where
  success : Bool
  calls : List RegCall
  errors : List (List Char)
  st : DissectOptions
deriving DecidableEq, Repr

/-- `setup_enabled_and_disabled_protocols`: process the four lists in the
fixed order disable-protocol, enable-protocol, enable-heuristic,
disable-heuristic; only the two heuristic loops affect the result. -/
def setup_enabled_and_disabled_protocols (reg : Registry)
    (st : DissectOptions) : ApplyRes :=
  let r3 := heurLoop reg true st.enable_heur_slist
  let r4 := heurLoop reg false st.disable_heur_slist
  { success := r3.ok && r4.ok
  , calls := st.disable_protocol_slist.map RegCall.disableProto
      ++ st.enable_protocol_slist.map RegCall.enableProto
      ++ r3.calls ++ r4.calls
  , errors := r3.errs ++ r4.errs
  , st := st }

/-- Semantics of the registry's per-protocol enabled flag: a disable call
clears the named protocol, an enable call sets it, heuristic calls leave
it untouched. -/
def applyCall (en : List Char → Bool) : RegCall → (List Char → Bool)
  | .disableProto n => fun m => if m = n then false else en m
  | .enableProto n => fun m => if m = n then true else en m
  | .enableHeur _ _ => en

/-- Run a trace of registry calls over an initial enabled-flag map. -/
def runCalls (en : List Char → Bool) (cs : List RegCall) : List Char → Bool :=
  cs.foldl applyCall en

/-! ### Helper lemmas -/

theorem getElem?_strchrIdx : ∀ (l : List Char) (i : Nat),
    strchrIdx l = some i → l[i]? = some '.'
  | [], i, h => by simp [strchrIdx] at h
  | c :: cs, i, h => by
      unfold strchrIdx at h
      by_cases hn : c = nulC
      · simp [hn] at h
      · by_cases hd : c = '.'
        · simp [hn, hd] at h
          obtain ⟨-, hi⟩ := h
          subst hi
          simp [hd]
        · simp [hn, hd, Option.map_eq_some'] at h
          obtain ⟨j, hj, hji⟩ := h
          subst hji
          simpa using getElem?_strchrIdx cs j hj

theorem set_set_self : ∀ (l : List Char) (i : Nat) (a b : Char),
    (l.set i a).set i b = l.set i b
  | [], _, _, _ => rfl
  | _ :: _, 0, _, _ => rfl
  | c :: cs, i + 1, a, b => by
      simp only [List.set]
      rw [set_set_self cs i a b]

theorem set_getElem_self : ∀ (l : List Char) (i : Nat) (c : Char),
    l[i]? = some c → l.set i c = l
  | [], i, c, h => by simp at h
  | d :: ds, 0, c, h => by
      simp at h
      simp [List.set, h]
  | d :: ds, i + 1, c, h => by
      simp at h
      simp only [List.set]
      rw [set_getElem_self ds i c h]

theorem tFormatPhase_none_frame (buf : List Char) (st : DissectOptions)
    (tsp : TsPrecision) :
    (tFormatPhase buf st none tsp []).buf = buf
    ∧ (tFormatPhase buf st none tsp []).writes = [] := by
  unfold tFormatPhase
  cases formatOf (cstr buf) with
  | none => exact ⟨rfl, rfl⟩
  | some f => exact ⟨rfl, rfl⟩

theorem tFormatPhase_some_frame (buf : List Char) (st : DissectOptions)
    (i : Nat) (tsp : TsPrecision) (w : List (Nat × Char)) :
    (tFormatPhase buf st (some i) tsp w).buf = buf.set i '.'
    ∧ (tFormatPhase buf st (some i) tsp w).writes = w ++ [(i, '.')] := by
  unfold tFormatPhase
  cases formatOf (cstr buf) with
  | some f => exact ⟨rfl, rfl⟩
  | none =>
      by_cases hi : i = 0
      · subst hi
        simp [tFinish]
      · simp [hi]

theorem tDotPhase_buf_eq (buf : List Char) (st : DissectOptions) (i : Nat)
    (hget : buf[i]? = some '.') : (tDotPhase buf st i).buf = buf := by
  unfold tDotPhase
  split
  · rfl
  · split
    · rfl
    · rename_i tsp hp hc
      rw [(tFormatPhase_some_frame (buf.set i nulC) st i tsp [(i, nulC)]).1]
      rw [set_set_self, set_getElem_self buf i '.' hget]

theorem tDotPhase_writes_shape (buf : List Char) (st : DissectOptions)
    (i : Nat) (hget : buf[i]? = some '.') :
    (tDotPhase buf st i).writes = []
    ∨ ∃ j, buf[j]? = some '.'
        ∧ (tDotPhase buf st i).writes = [(j, nulC), (j, '.')] := by
  unfold tDotPhase
  split
  · exact Or.inl rfl
  · split
    · exact Or.inl rfl
    · rename_i tsp hp hc
      exact Or.inr ⟨i, hget,
        (tFormatPhase_some_frame (buf.set i nulC) st i tsp [(i, nulC)]).2⟩

theorem handleT_buf_eq (buf : List Char) (st : DissectOptions) :
    (handleT buf st).buf = buf := by
  unfold handleT
  cases hdot : strchrIdx buf with
  | none => exact (tFormatPhase_none_frame buf st .TS_PREC_NOT_SET).1
  | some i => exact tDotPhase_buf_eq buf st i (getElem?_strchrIdx buf i hdot)

theorem handleT_writes_shape (buf : List Char) (st : DissectOptions) :
    (handleT buf st).writes = []
    ∨ ∃ i, buf[i]? = some '.'
        ∧ (handleT buf st).writes = [(i, nulC), (i, '.')] := by
  unfold handleT
  cases hdot : strchrIdx buf with
  | none => exact Or.inl (tFormatPhase_none_frame buf st .TS_PREC_NOT_SET).2
  | some i =>
      exact tDotPhase_writes_shape buf st i (getElem?_strchrIdx buf i hdot)

theorem heurLoop_ok_eq (reg : Registry) (b : Bool) :
    ∀ l : List (List Char),
      (heurLoop reg b l).ok = l.all (fun n => reg.enableHeuristic n b)
  | [] => rfl
  | n :: ns => by
      simp only [heurLoop, List.all_cons, heurLoop_ok_eq reg b ns]

theorem heurLoop_calls_eq (reg : Registry) (b : Bool) :
    ∀ l : List (List Char),
      (heurLoop reg b l).calls = l.map (fun n => RegCall.enableHeur n b)
  | [] => rfl
  | n :: ns => by
      simp only [heurLoop, List.map_cons, heurLoop_calls_eq reg b ns]

theorem heurLoop_errs_eq (reg : Registry) (b : Bool) :
    ∀ l : List (List Char),
      (heurLoop reg b l).errs = l.filter (fun n => !(reg.enableHeuristic n b))
  | [] => rfl
  | n :: ns => by
      simp only [heurLoop, List.filter_cons, heurLoop_errs_eq reg b ns]
      cases h : reg.enableHeuristic n b <;> simp [h]

theorem runCalls_append (en : List Char → Bool) (cs ds : List RegCall) :
    runCalls en (cs ++ ds) = runCalls (runCalls en cs) ds :=
  List.foldl_append applyCall en cs ds

theorem runCalls_heur_id (en : List Char → Bool) (b : Bool) :
    ∀ l : List (List Char),
      runCalls en (l.map (fun n => RegCall.enableHeur n b)) = en
  | [] => rfl
  | _ :: ns => runCalls_heur_id en b ns

theorem runCalls_enableProto_true (name : List Char) :
    ∀ (l : List (List Char)) (en : List Char → Bool),
      en name = true ∨ name ∈ l →
      runCalls en (l.map RegCall.enableProto) name = true
  | [], en, h => by
      rcases h with h | h
      · exact h
      · simp at h
  | m :: ms, en, h => by
      have step : runCalls en ((m :: ms).map RegCall.enableProto) name
          = runCalls (applyCall en (RegCall.enableProto m))
            (ms.map RegCall.enableProto) name := rfl
      rw [step]
      apply runCalls_enableProto_true name ms
      by_cases hm : name = m
      · left
        simp [applyCall, hm]
      · rcases h with h | h
        · left
          simpa [applyCall, hm] using h
        · right
          simpa [List.mem_cons, hm] using h

/-! ### Claim theorems -/

/-- Claim C1 (amended): of the three spec inputs, `"bogus"` and `"a.5"`
make the `'t'` handler return failure and leave `time_format`,
`time_precision` and the argument buffer exactly as they were, but `"a."`
is accepted: the code treats an absent digit after the dot as automatic
precision (its own error message says N may be absent), so the call
succeeds, setting `time_format = TS_ABSOLUTE` and
`time_precision = TS_PREC_AUTO`. -/
theorem t_opt_bogus_a5_fail_adot_accepted (st : DissectOptions) :
    handleT ['b', 'o', 'g', 'u', 's'] st
      = ⟨false, ['b', 'o', 'g', 'u', 's'], st, []⟩
    ∧ handleT ['a', '.', '5'] st = ⟨false, ['a', '.', '5'], st, []⟩
    ∧ handleT ['a', '.'] st
      = ⟨true, ['a', '.'],
         { st with time_format := .TS_ABSOLUTE,
                   time_precision := .TS_PREC_AUTO },
         [(1, nulC), (1, '.')]⟩ :=
  ⟨rfl, rfl, rfl⟩

/-- Claim C1, counterexample: on the input `"a."` the `'t'` handler
returns success, not failure, starting from the freshly initialised
options. -/
theorem t_opt_adot_succeeds_ce :
    (handleT ['a', '.'] dissect_opts_init).ok = true := by decide

/-- Claim C2 (amended): the `'t'` handler on the argument `"."` returns
success, setting `time_precision = TS_PREC_AUTO` and leaving `time_format`
unchanged (the empty prefix means precision-only, and an absent digit
after the dot means automatic precision). -/
theorem t_opt_bare_dot_sets_auto (st : DissectOptions) :
    handleT ['.'] st
      = ⟨true, ['.'], { st with time_precision := .TS_PREC_AUTO },
         [(0, nulC), (0, '.')]⟩ :=
  rfl

/-- Claim C2, counterexample: on the input `"."` the `'t'` handler returns
success, not failure, starting from the freshly initialised options. -/
theorem t_opt_bare_dot_succeeds_ce :
    (handleT ['.'] dissect_opts_init).ok = true := by decide

/-- Claim C3, counterexample: on the input `"a.3"` the `'t'` handler does
write into the caller's argument buffer during execution — the write log
is non-empty (the dot is masked with NUL and later restored). -/
theorem t_opt_a3_writes_ce :
    (handleT ['a', '.', '3'] dissect_opts_init).writes ≠ [] := by decide

/-- Claim C3 (amended): the `'t'` handler does mutate the caller's
argument buffer (it masks the dot with NUL to perform the split), but the
mutation is always undone: for every input buffer and prior state, the
buffer on return holds exactly its original contents. -/
theorem t_opt_buffer_equal_on_return (buf : List Char)
    (st : DissectOptions) : (handleT buf st).buf = buf :=
  handleT_buf_eq buf st

/-- Claim C4: the `'t'` handler on `"r"` sets `time_format = TS_RELATIVE`
leaving precision untouched, on `"a.3"` sets `time_format = TS_ABSOLUTE`
and `time_precision = TS_PREC_FIXED_MSEC`, on `".0"` sets
`time_precision = TS_PREC_FIXED_SEC` leaving the prior format untouched,
and returns success in all three cases. -/
theorem t_opt_valid_inputs (st : DissectOptions) :
    handleT ['r'] st
      = ⟨true, ['r'], { st with time_format := .TS_RELATIVE }, []⟩
    ∧ handleT ['a', '.', '3'] st
      = ⟨true, ['a', '.', '3'],
         { st with time_format := .TS_ABSOLUTE,
                   time_precision := .TS_PREC_FIXED_MSEC },
         [(1, nulC), (1, '.')]⟩
    ∧ handleT ['.', '0'] st
      = ⟨true, ['.', '0'],
         { st with time_precision := .TS_PREC_FIXED_SEC },
         [(0, nulC), (0, '.')]⟩ :=
  ⟨rfl, rfl, rfl⟩

/-- Claim C9: for every input string, the `'t'` handler returns the
argument buffer with exactly its original contents, and its write log is
either empty (the paths that never masked the dot performed no write at
all) or consists exactly of masking a dot position with NUL followed by
restoring the dot there. -/
theorem t_opt_nul_restored_every_path (buf : List Char)
    (st : DissectOptions) :
    (handleT buf st).buf = buf
    ∧ ((handleT buf st).writes = []
        ∨ ∃ i, buf[i]? = some '.'
            ∧ (handleT buf st).writes = [(i, nulC), (i, '.')]) :=
  ⟨handleT_buf_eq buf st, handleT_writes_shape buf st⟩

theorem handle_opt_unrecognized_aborts (ext : Externals) (opt : Nat)
    (arg : List Char) (st : DissectOptions) (hmem : opt ∉ recognizedOpts) :
    dissect_opts_handle_opt ext opt arg st = HOutcome.assertNotReached := by
  simp [recognizedOpts, not_or, LONGOPT_DISABLE_PROTOCOL,
    LONGOPT_ENABLE_HEURISTIC, LONGOPT_DISABLE_HEURISTIC,
    LONGOPT_ENABLE_PROTOCOL] at hmem
  obtain ⟨h1, h2, h3, h4, h5, h6, h7, h8, h9, h10⟩ := hmem
  simp [dissect_opts_handle_opt, LONGOPT_DISABLE_PROTOCOL,
    LONGOPT_ENABLE_HEURISTIC, LONGOPT_DISABLE_HEURISTIC,
    LONGOPT_ENABLE_PROTOCOL, h1, h2, h3, h4, h5, h6, h7, h8, h9, h10]

theorem handle_opt_recognized_no_abort (ext : Externals) (opt : Nat)
    (arg : List Char) (st : DissectOptions) (h : opt ∈ recognizedOpts) :
    dissect_opts_handle_opt ext opt arg st ≠ HOutcome.assertNotReached := by
  simp only [recognizedOpts, List.mem_cons, List.not_mem_nil, or_false] at h
  rcases h with h | h | h | h | h | h | h | h | h | h <;> subst h
  · cases hda : ext.decodeAs arg <;> simp [dissect_opts_handle_opt, hda]
  · cases hk : ext.kerberosSupport <;> simp [dissect_opts_handle_opt, hk]
  · simp [dissect_opts_handle_opt]
  · by_cases hn : ext.stringToNameResolve arg = nulC <;>
      simp [dissect_opts_handle_opt, hn]
  · simp [dissect_opts_handle_opt]
  · by_cases hs : cstr arg = ['s'] <;>
      by_cases hh : cstr arg = ['h', 'm', 's'] <;>
      simp [dissect_opts_handle_opt, hs, hh]
  · simp [dissect_opts_handle_opt, LONGOPT_DISABLE_PROTOCOL,
      LONGOPT_ENABLE_HEURISTIC, LONGOPT_DISABLE_HEURISTIC,
      LONGOPT_ENABLE_PROTOCOL]
  · simp [dissect_opts_handle_opt, LONGOPT_DISABLE_PROTOCOL,
      LONGOPT_ENABLE_HEURISTIC, LONGOPT_DISABLE_HEURISTIC,
      LONGOPT_ENABLE_PROTOCOL]
  · simp [dissect_opts_handle_opt, LONGOPT_DISABLE_PROTOCOL,
      LONGOPT_ENABLE_HEURISTIC, LONGOPT_DISABLE_HEURISTIC,
      LONGOPT_ENABLE_PROTOCOL]
  · simp [dissect_opts_handle_opt, LONGOPT_DISABLE_PROTOCOL,
      LONGOPT_ENABLE_HEURISTIC, LONGOPT_DISABLE_HEURISTIC,
      LONGOPT_ENABLE_PROTOCOL]

/-- Claim C5: the apply phase issues its registry calls in the fixed
order disable-protocol, enable-protocol, enable-heuristic,
disable-heuristic; hence for a name appearing in both the disable and the
enable protocol lists, the disable call precedes the enable call and,
under the stated registry semantics, the name ends up enabled. -/
theorem apply_disable_before_enable (reg : Registry) (st : DissectOptions)
    (en : List Char → Bool) (name : List Char)
    (_hd : name ∈ st.disable_protocol_slist)
    (he : name ∈ st.enable_protocol_slist) :
    (setup_enabled_and_disabled_protocols reg st).calls
      = st.disable_protocol_slist.map RegCall.disableProto
        ++ st.enable_protocol_slist.map RegCall.enableProto
        ++ (heurLoop reg true st.enable_heur_slist).calls
        ++ (heurLoop reg false st.disable_heur_slist).calls
    ∧ runCalls en (setup_enabled_and_disabled_protocols reg st).calls name
      = true := by
  constructor
  · rfl
  · show runCalls en
      (st.disable_protocol_slist.map RegCall.disableProto
        ++ st.enable_protocol_slist.map RegCall.enableProto
        ++ (heurLoop reg true st.enable_heur_slist).calls
        ++ (heurLoop reg false st.disable_heur_slist).calls) name = true
    rw [heurLoop_calls_eq, heurLoop_calls_eq, runCalls_append,
      runCalls_heur_id, runCalls_append, runCalls_heur_id, runCalls_append]
    exact runCalls_enableProto_true name st.enable_protocol_slist _
      (Or.inr he)

/-- A configuration state holding the name `"x"` in both the
disable-protocol and the enable-protocol lists, used by the witness. -/
def stBoth : DissectOptions :=
  { dissect_opts_init with
      disable_protocol_slist := [['x']]
    , enable_protocol_slist := [['x']] }

/-- A registry oracle accepting every heuristic name. -/
def regAll : Registry := ⟨fun _ _ => true⟩

/-- An initial registry enabled-flag map with every protocol disabled. -/
def enNone : List Char → Bool := fun _ => false

/-- Claim C5, witness: with `"x"` in both protocol lists, starting from a
registry map where everything is disabled, `"x"` is enabled after the
apply phase. -/
theorem apply_disable_before_enable_witness :
    (setup_enabled_and_disabled_protocols regAll stBoth).calls
      = stBoth.disable_protocol_slist.map RegCall.disableProto
        ++ stBoth.enable_protocol_slist.map RegCall.enableProto
        ++ (heurLoop regAll true stBoth.enable_heur_slist).calls
        ++ (heurLoop regAll false stBoth.disable_heur_slist).calls
    ∧ runCalls enNone (setup_enabled_and_disabled_protocols regAll
        stBoth).calls ['x'] = true :=
  apply_disable_before_enable regAll stBoth enNone ['x']
    (by decide) (by decide)

/-- Claim C6: the apply phase fails exactly when some heuristic
enable/disable registry call answered false; the protocol
disable/enable steps never influence the result; every name of all four
lists is processed (the call trace maps each list completely, in order);
and every per-name error is emitted (the error list contains exactly the
failing heuristic names) before the aggregate result is returned. -/
theorem apply_failure_iff_heur_failure (reg : Registry)
    (st : DissectOptions) :
    ((setup_enabled_and_disabled_protocols reg st).success = false ↔
      (∃ n ∈ st.enable_heur_slist, reg.enableHeuristic n true = false)
      ∨ (∃ n ∈ st.disable_heur_slist, reg.enableHeuristic n false = false))
    ∧ (setup_enabled_and_disabled_protocols reg st).calls
      = st.disable_protocol_slist.map RegCall.disableProto
        ++ st.enable_protocol_slist.map RegCall.enableProto
        ++ st.enable_heur_slist.map (fun n => RegCall.enableHeur n true)
        ++ st.disable_heur_slist.map (fun n => RegCall.enableHeur n false)
    ∧ (setup_enabled_and_disabled_protocols reg st).errors
      = st.enable_heur_slist.filter (fun n => !(reg.enableHeuristic n true))
        ++ st.disable_heur_slist.filter
            (fun n => !(reg.enableHeuristic n false)) := by
  refine ⟨?_, ?_, ?_⟩
  · show (((heurLoop reg true st.enable_heur_slist).ok
        && (heurLoop reg false st.disable_heur_slist).ok) = false ↔ _)
    rw [heurLoop_ok_eq, heurLoop_ok_eq]
    simp only [Bool.and_eq_false_iff, List.all_eq_false, Bool.not_eq_true]
  · show st.disable_protocol_slist.map RegCall.disableProto
        ++ st.enable_protocol_slist.map RegCall.enableProto
        ++ (heurLoop reg true st.enable_heur_slist).calls
        ++ (heurLoop reg false st.disable_heur_slist).calls = _
    rw [heurLoop_calls_eq, heurLoop_calls_eq]
  · show (heurLoop reg true st.enable_heur_slist).errs
        ++ (heurLoop reg false st.disable_heur_slist).errs = _
    rw [heurLoop_errs_eq, heurLoop_errs_eq]

/-- Claim C7: the apply phase never modifies the configuration state, so
running it a second time on the state it leaves behind, against the same
registry, yields the identical result (aggregate boolean included). -/
theorem apply_idempotent (reg : Registry) (st : DissectOptions) :
    setup_enabled_and_disabled_protocols reg
        (setup_enabled_and_disabled_protocols reg st).st
      = setup_enabled_and_disabled_protocols reg st := rfl

/-- Claim C8: the dispatcher returns (rather than hitting the
`ws_assert_not_reached` abort) exactly for option codes in the recognized
set; every code outside it reaches the abort, and under the caller
contract of passing only recognized codes the abort branch is
unreachable. -/
theorem handle_opt_recognized_iff_no_abort (ext : Externals) (opt : Nat)
    (arg : List Char) (st : DissectOptions) :
    opt ∈ recognizedOpts ↔
      dissect_opts_handle_opt ext opt arg st ≠ HOutcome.assertNotReached := by
  constructor
  · exact handle_opt_recognized_no_abort ext opt arg st
  · intro hne
    by_contra hmem
    exact hne (handle_opt_unrecognized_aborts ext opt arg st hmem)

/-- A concrete set of external collaborators for the witnesses; its
`readKeytab` oracle reports failure, showing the result is ignored. -/
def extAll : Externals :=
  ⟨fun _ => true, fun _ => nulC, true, fun _ => false⟩

/-- Claim C8, witness: the concrete unrecognized code 999 drives the
dispatcher into the abort branch. -/
theorem handle_opt_recognized_iff_no_abort_witness :
    dissect_opts_handle_opt extAll 999 [] dissect_opts_init
      = HOutcome.assertNotReached := by
  by_contra hne
  exact absurd
    ((handle_opt_recognized_iff_no_abort extAll 999 []
        dissect_opts_init).mpr hne)
    (by decide)

/-- Claim C10: with Kerberos keytab support compiled in, the `'K'`
handler returns success for every path argument and every possible
outcome of `read_keytab_file`, whose result is never consulted. -/
theorem keytab_result_ignored (ext : Externals) (arg : List Char)
    (st : DissectOptions) (h : ext.kerberosSupport = true) :
    dissect_opts_handle_opt ext 'K'.toNat arg st
      = HOutcome.ret true st arg [] := by
  simp [dissect_opts_handle_opt, h]

/-- Claim C10, witness: even with a `read_keytab_file` oracle that
reports failure, the `'K'` handler returns success. -/
theorem keytab_result_ignored_witness :
    extAll.kerberosSupport = true
    ∧ dissect_opts_handle_opt extAll 'K'.toNat [] dissect_opts_init
      = HOutcome.ret true dissect_opts_init [] [] :=
  ⟨rfl, keytab_result_ignored extAll [] dissect_opts_init rfl⟩
